import Mathlib

/-!
Shallow embedding of the Blackjack round engine
(`src/lib/game/blackjack.ts`, class `BlackjackGame`) together with the
enums of `src/lib/enums.ts`.  JS numbers holding bets and the balance are
modelled as `Int`; hand values (sums of non-negative card points) as `Nat`.
The external card supply (the `Deck` collaborator) is modelled as the list
of cards it will produce on future draws: `draw n` takes up to `n` cards
from the front; a reshuffle only permutes cards the engine has not seen,
so it is the identity on this model of the draw stream.
-/

namespace Blackjack

/-! ### Definitions: the data model and the operations of the engine -/

/-- A card rank as delivered by the deck API: one of `"2"`..`"10"`
(parsed with `parseInt`) or the face values. -/
inductive Rank : Type
  | two
  | three
  | four
  | five
  | six
  | seven
  | eight
  | nine
  | ten
  | jack
  | queen
  | king
  | ace
deriving DecidableEq, Repr

/-- A card; the engine only ever inspects `card.value`. -/
structure Card : Type where
  value : Rank
deriving DecidableEq, Repr

/-- Per-card contribution used by `calculateHandValue`: ACE adds
`CardValue.ACE = 11`, KING/QUEEN/JACK add 10, a numeric rank adds its
parsed value. -/
def cardPoints : Rank → Nat
  | .ace => 11
  | .jack => 10
  | .queen => 10
  | .king => 10
  | .two => 2
  | .three => 3
  | .four => 4
  | .five => 5
  | .six => 6
  | .seven => 7
  | .eight => 8
  | .nine => 9
  | .ten => 10

/-- The first pass of `calculateHandValue`: total with every ace at 11. -/
def sumPoints (hand : List Card) : Nat :=
  (hand.map fun c => cardPoints c.value).sum

/-- Number of aces counted by the first pass of `calculateHandValue`. -/
def countAces (hand : List Card) : Nat :=
  hand.countP fun c => c.value == Rank.ace

/-- The `while (total > 21 && aces > 0) { total -= 10; aces--; }` loop of
`calculateHandValue`, with the ace tally as the structural fuel. -/
def reduceAces : Nat → Nat → Nat
  | total, 0 => total
  | total, a + 1 => if 21 < total then reduceAces (total - 10) a else total

/-- `calculateHandValue(hand)` from `blackjack.ts`. -/
def calculateHandValue (hand : List Card) : Nat :=
  reduceAces (sumPoints hand) (countAces hand)

/-- `isBust(hand)` from `blackjack.ts`. -/
def isBust (hand : List Card) : Bool :=
  21 < calculateHandValue hand

/-- `isNaturalBlackjack(hand)` from `blackjack.ts`. -/
def isNaturalBlackjack (hand : List Card) : Bool :=
  calculateHandValue hand == 21 && hand.length == 2

/-- Spec-side description of the achievable totals of a hand: every card
contributes its rank value, with each ACE independently counted as either
1 or 11 (used to state that `calculateHandValue` picks the best total). -/
def aceChoiceTotals : List Card → List Nat
  | [] => [0]
  | c :: cs =>
    let rest := aceChoiceTotals cs
    match c.value with
    | .ace => rest.map (· + 1) ++ rest.map (· + 11)
    | v => rest.map (· + cardPoints v)

/-- Minimum contribution of a card (every ace scored 1). -/
def minPoints : Rank → Nat
  | .ace => 1
  | r => cardPoints r

/-- Minimum achievable total of a hand (every ace scored 1). -/
def minSum (hand : List Card) : Nat :=
  (hand.map fun c => minPoints c.value).sum

/-- `GamePhase` from `enums.ts`. -/
inductive GamePhase : Type
  | betting
  | initialDeal
  | playerTurn
  | dealerTurn
  | outcome
deriving DecidableEq, Repr

/-- `GameOutcome` from `enums.ts`. -/
inductive GameOutcome : Type
  | playerBust
  | dealerBust
  | playerWins
  | dealerWins
  | push
  | playerBlackjack
  | dealerBlackjack
  | playerSurrender
deriving DecidableEq, Repr

/-- `PlayerAction` from `enums.ts`. -/
inductive PlayerAction : Type
  | hit
  | stand
  | doubleDown
  | split
  | surrender
deriving DecidableEq, Repr

/-- `WinState` from `enums.ts`. -/
inductive WinState : Type
  | player
  | dealer
  | push
deriving DecidableEq, Repr

/-- The `Error(...)` values thrown by the engine: "Bet must be divisible
by 10", "Insufficient balance", "Cannot split this hand" / "This hand
cannot be split". -/
inductive GameError : Type
  | invalidBet
  | insufficientBalance
  | cannotSplit
deriving DecidableEq, Repr

/-- The mutable fields of class `BlackjackGame`, with the external deck
replaced by the list of cards it will yield on future draws. -/
structure GameState : Type where
  supply : List Card
  playerHands : List (List Card)
  activeHandIndex : Nat
  dealerHand : List Card
  playerBets : List Int
  playerBalance : Int
  gameOver : Bool
  splitHandsIndices : List Nat
  currentPhase : GamePhase
  gameOutcomes : List (Option GameOutcome)
deriving DecidableEq, Repr

/-- Field initializers of `BlackjackGame` (a fresh engine holding a given
draw stream). -/
def initState (supply : List Card) : GameState where
  supply := supply
  playerHands := [[]]
  activeHandIndex := 0
  dealerHand := []
  playerBets := [0]
  playerBalance := 1000
  gameOver := false
  splitHandsIndices := []
  currentPhase := GamePhase.betting
  gameOutcomes := [none]

/-- `getActiveHand()`. -/
def activeHand (s : GameState) : List Card :=
  s.playerHands.getD s.activeHandIndex []

/-- `getActiveHandBet()`. -/
def activeHandBet (s : GameState) : Int :=
  s.playerBets.getD s.activeHandIndex 0

/-- `determineWinner(playerHand, dealerHand)`. -/
def determineWinner (playerHand dealerHand : List Card) : WinState :=
  let playerValue := calculateHandValue playerHand
  let dealerValue := calculateHandValue dealerHand
  if 21 < playerValue then WinState.dealer
  else if 21 < dealerValue then WinState.player
  else if dealerValue < playerValue then WinState.player
  else if playerValue < dealerValue then WinState.dealer
  else WinState.push

/-- `startGame(bet)`: guards, per-round reset, debit, deal, and the
immediate natural-blackjack resolution.  `Math.floor(bet * 2.5)` is
`Int.fdiv (bet * 5) 2` (floor division).  The deck (re)shuffle before
the draw is the identity on the modelled draw stream. -/
def startGame (bet : Int) (s : GameState) :
    Except GameError (Option GameOutcome × GameState) :=
  if bet % 10 ≠ 0 then Except.error GameError.invalidBet
  else if s.playerBalance < bet then Except.error GameError.insufficientBalance
  else
    let s1 : GameState :=
      { s with
        playerHands := [[]]
        playerBets := [bet]
        activeHandIndex := 0
        gameOutcomes := [none]
        splitHandsIndices := []
        playerBalance := s.playerBalance - bet
        currentPhase := GamePhase.initialDeal }
    let drawn := s1.supply.take 4
    let s2 : GameState :=
      { s1 with
        supply := s1.supply.drop 4
        playerHands := [drawn.take 2]
        dealerHand := drawn.drop 2 }
    let playerHasBlackjack := isNaturalBlackjack (activeHand s2)
    let dealerHasBlackjack := isNaturalBlackjack s2.dealerHand
    if playerHasBlackjack || dealerHasBlackjack then
      let s3 : GameState := { s2 with currentPhase := GamePhase.outcome }
      if playerHasBlackjack && dealerHasBlackjack then
        Except.ok (some GameOutcome.push,
          { s3 with
            playerBalance := s3.playerBalance + s3.playerBets.getD 0 0
            gameOutcomes := s3.gameOutcomes.set 0 (some GameOutcome.push) })
      else if playerHasBlackjack then
        Except.ok (some GameOutcome.playerBlackjack,
          { s3 with
            playerBalance := s3.playerBalance + Int.fdiv (s3.playerBets.getD 0 0 * 5) 2
            gameOutcomes := s3.gameOutcomes.set 0 (some GameOutcome.playerBlackjack) })
      else
        Except.ok (some GameOutcome.dealerBlackjack,
          { s3 with
            gameOutcomes := s3.gameOutcomes.set 0 (some GameOutcome.dealerBlackjack) })
    else
      Except.ok (none,
        { s2 with
          currentPhase := GamePhase.playerTurn
          gameOutcomes := s2.gameOutcomes.set 0 none })

/-- `hit(hand)` on the active hand: draw one card (possibly none left)
and push it onto the hand in place.  `maybeReshuffle` is the identity on
the modelled draw stream. -/
def hitActive (s : GameState) : GameState :=
  match s.supply with
  | [] => s
  | c :: rest =>
    { s with
      supply := rest
      playerHands := s.playerHands.set s.activeHandIndex (activeHand s ++ [c]) }

/-- `hit(dealerHand)` (`hitDealer()`). -/
def hitDealer (s : GameState) : GameState :=
  match s.supply with
  | [] => s
  | c :: rest =>
    { s with supply := rest, dealerHand := s.dealerHand ++ [c] }

/-- `checkHandOutcome(handIndex)`: settle one hand against the dealer
hand and credit the balance. -/
def checkHandOutcome (s : GameState) (handIndex : Nat) : GameState :=
  let hand := s.playerHands.getD handIndex []
  let bet := s.playerBets.getD handIndex 0
  if isBust hand then
    { s with gameOutcomes := s.gameOutcomes.set handIndex (some GameOutcome.playerBust) }
  else if isBust s.dealerHand then
    { s with
      playerBalance := s.playerBalance + bet * 2
      gameOutcomes := s.gameOutcomes.set handIndex (some GameOutcome.dealerBust) }
  else
    match determineWinner hand s.dealerHand with
    | WinState.player =>
      { s with
        playerBalance := s.playerBalance + bet * 2
        gameOutcomes := s.gameOutcomes.set handIndex (some GameOutcome.playerWins) }
    | WinState.dealer =>
      { s with gameOutcomes := s.gameOutcomes.set handIndex (some GameOutcome.dealerWins) }
    | WinState.push =>
      { s with
        playerBalance := s.playerBalance + bet
        gameOutcomes := s.gameOutcomes.set handIndex (some GameOutcome.push) }

/-- `checkAllHandsOutcome()`: settle every hand index in order. -/
def checkAllHandsOutcome (s : GameState) : GameState :=
  (List.range s.playerHands.length).foldl checkHandOutcome s

/-- The dealer draw loop of `dealerPlay()`:
`while (calculateHandValue(dealerHand) < 17) await hitDealer()`.
`none` marks the case where a draw returns no card — the real loop would
then spin forever since the hand stops growing. -/
def dealerDrawLoop (hand : List Card) (supply : List Card) :
    Option (List Card × List Card) :=
  if calculateHandValue hand < 17 then
    match supply with
    | [] => none
    | c :: rest => dealerDrawLoop (hand ++ [c]) rest
  else
    some (hand, supply)

/-- `dealerPlay()`: enter DealerTurn, draw to 17+, enter Outcome, settle
all hands.  The DealerTurn phase written on entry is overwritten by
Outcome on every terminating path (and subsumed by the `none` divergence
marker otherwise), so the source's initial phase write collapses into
the final record here. -/
def dealerPlay (s : GameState) : Option GameState :=
  match dealerDrawLoop s.dealerHand s.supply with
  | none => none
  | some (h, rest) =>
    some (checkAllHandsOutcome
      { s with
        dealerHand := h
        supply := rest
        currentPhase := GamePhase.outcome })

/-- `checkGameOver()`. -/
def checkGameOver (s : GameState) : GameState :=
  { s with gameOver := s.playerBalance ≤ 0 }

/-- `restartGame()`. -/
def restartGame (s : GameState) : GameState :=
  { s with
    playerBalance := 1000
    gameOver := false
    currentPhase := GamePhase.betting
    playerHands := [[]]
    playerBets := [0]
    activeHandIndex := 0
    gameOutcomes := [none]
    splitHandsIndices := [] }

/-- `newRound()`. -/
def newRound (s : GameState) : GameState :=
  { s with
    currentPhase := GamePhase.betting
    playerHands := [[]]
    playerBets := [0]
    activeHandIndex := 0
    gameOutcomes := [none]
    splitHandsIndices := []
    dealerHand := [] }

/-- `getCardValue(card)` (private helper used by `canSplit`). -/
def getCardValue (c : Card) : Nat :=
  match c.value with
  | Rank.king => 10
  | Rank.queen => 10
  | Rank.jack => 10
  | Rank.ace => 11
  | r => cardPoints r

/-- `canSplit()`: exactly two cards, not a split-originated hand, equal
card values, and balance covering the active bet. -/
def canSplit (s : GameState) : Bool :=
  match activeHand s with
  | [c1, c2] =>
    !(s.splitHandsIndices.contains s.activeHandIndex) &&
      (getCardValue c1 == getCardValue c2 && activeHandBet s ≤ s.playerBalance)
  | _ => false

/-- `splitHand()` after its `canSplit` guard has passed: debit a second
stake, split the two cards into two hands, draw one card into each (both
or neither, as in the source's `length === 2` check), mark both indices
split-originated, append the second hand with its bet and empty
outcome. -/
def splitHand (s : GameState) : GameState :=
  let hand := activeHand s
  let bet := activeHandBet s
  let c1 := hand.getD 0 ⟨Rank.two⟩
  let c2 := hand.getD 1 ⟨Rank.two⟩
  let drawn := s.supply.take 2
  let hand1 := if drawn.length = 2 then [c1] ++ [drawn.getD 0 ⟨Rank.two⟩] else [c1]
  let hand2 := if drawn.length = 2 then [c2] ++ [drawn.getD 1 ⟨Rank.two⟩] else [c2]
  { s with
    playerBalance := s.playerBalance - bet
    supply := s.supply.drop 2
    playerHands := (s.playerHands.set s.activeHandIndex hand1) ++ [hand2]
    splitHandsIndices := s.splitHandsIndices ++ [s.activeHandIndex, s.playerHands.length]
    playerBets := s.playerBets ++ [bet]
    gameOutcomes := s.gameOutcomes ++ [none] }

/-- `moveToNextHand()`: returns whether it advanced, with the updated
state. -/
def moveToNextHand (s : GameState) : Bool × GameState :=
  if s.activeHandIndex < s.playerHands.length - 1 then
    (true, { s with activeHandIndex := s.activeHandIndex + 1 })
  else
    (false, s)

/-- Shared tail of the Hit and Stand branches of `handleAction`: move to
the next hand, or enter DealerTurn, run `dealerPlay` and `checkGameOver`. -/
def endHandOrDealer (s : GameState) : Option (Except GameError GameState) :=
  match moveToNextHand s with
  | (true, s') => some (Except.ok s')
  | (false, s') =>
    match dealerPlay { s' with currentPhase := GamePhase.dealerTurn } with
    | none => none
    | some s'' => some (Except.ok (checkGameOver s''))

/-- `handleAction(action)`.  The source's `switch` has cases only for
Hit, Stand and Split; DoubleDown and Surrender fall through and leave the
engine untouched.  `none` marks divergence of the dealer draw loop;
`Except.error` marks a thrown `Error`. -/
def handleAction (action : PlayerAction) (s : GameState) :
    Option (Except GameError GameState) :=
  match action with
  | PlayerAction.hit =>
    let s1 := hitActive s
    if isBust (activeHand s1) then
      endHandOrDealer
        { s1 with
          gameOutcomes := s1.gameOutcomes.set s1.activeHandIndex (some GameOutcome.playerBust) }
    else
      some (Except.ok s1)
  | PlayerAction.stand => endHandOrDealer s
  | PlayerAction.split =>
    if canSplit s then some (Except.ok (splitHand s))
    else some (Except.error GameError.cannotSplit)
  | PlayerAction.doubleDown => some (Except.ok s)
  | PlayerAction.surrender => some (Except.ok s)

/-- The deal used throughout the repository's tests:
player 10,7 / dealer 5,8, with a 4 left to draw. -/
def demoSupply : List Card :=
  [⟨Rank.ten⟩, ⟨Rank.seven⟩, ⟨Rank.five⟩, ⟨Rank.eight⟩, ⟨Rank.four⟩]

/-- A deal giving the dealer a natural blackjack. -/
def dealerBJSupply : List Card :=
  [⟨Rank.two⟩, ⟨Rank.three⟩, ⟨Rank.ace⟩, ⟨Rank.king⟩]

/-- Mid-round state holding a splittable pair of eights with follow-up
cards 3 and 4 on the supply. -/
def splitDemoState : GameState :=
  { initState [⟨Rank.three⟩, ⟨Rank.four⟩] with
    playerHands := [[⟨Rank.eight⟩, ⟨Rank.eight⟩]]
    playerBets := [100]
    playerBalance := 900
    currentPhase := GamePhase.playerTurn }

/-- An exhausted, game-over engine. -/
def gameOverState : GameState :=
  { initState demoSupply with playerBalance := 0, gameOver := true }

/-- An engine still in the Betting phase but holding a dealt hand. -/
def bettingPhaseState : GameState :=
  { initState [⟨Rank.two⟩] with
    playerHands := [[⟨Rank.ten⟩, ⟨Rank.seven⟩]]
    playerBets := [100]
    playerBalance := 900 }

/-- Restatement of the claim for a successful `startRound(bet)`: debit
the bet, deal cards 0,1 to the player and 2,3 to the dealer, evaluate
the natural-blackjack check for both hands at once, credit and resolve
as the claim describes (`floor(bet * 2.5)` is `Int.fdiv (bet * 5) 2`),
and report the resolved outcome or null. -/
def startRoundSpec (bet : Int) (s : GameState) :
    Option GameOutcome × GameState :=
  let p := (s.supply.take 4).take 2
  let d := (s.supply.take 4).drop 2
  let base : GameState :=
    { s with
      supply := s.supply.drop 4
      playerHands := [p]
      dealerHand := d
      playerBets := [bet]
      activeHandIndex := 0
      splitHandsIndices := []
      playerBalance := s.playerBalance - bet
      gameOutcomes := [none]
      currentPhase := GamePhase.playerTurn }
  if isNaturalBlackjack p && isNaturalBlackjack d then
    (some GameOutcome.push,
      { base with
        playerBalance := base.playerBalance + bet
        gameOutcomes := [some GameOutcome.push]
        currentPhase := GamePhase.outcome })
  else if isNaturalBlackjack p then
    (some GameOutcome.playerBlackjack,
      { base with
        playerBalance := base.playerBalance + Int.fdiv (bet * 5) 2
        gameOutcomes := [some GameOutcome.playerBlackjack]
        currentPhase := GamePhase.outcome })
  else if isNaturalBlackjack d then
    (some GameOutcome.dealerBlackjack,
      { base with
        gameOutcomes := [some GameOutcome.dealerBlackjack]
        currentPhase := GamePhase.outcome })
  else
    (none, base)

/-- Per-hand outcome as the claim describes it: bust hands lose outright
(even against a busted dealer), then dealer bust, then total
comparison. -/
def handResult (dealer hand : List Card) : GameOutcome :=
  if isBust hand then GameOutcome.playerBust
  else if isBust dealer then GameOutcome.dealerBust
  else if calculateHandValue dealer < calculateHandValue hand then GameOutcome.playerWins
  else if calculateHandValue hand < calculateHandValue dealer then GameOutcome.dealerWins
  else GameOutcome.push

/-- Per-hand balance credit as the claim describes it. -/
def handCredit (dealer hand : List Card) (bet : Int) : Int :=
  if isBust hand then 0
  else if isBust dealer then bet * 2
  else if calculateHandValue dealer < calculateHandValue hand then bet * 2
  else if calculateHandValue hand < calculateHandValue dealer then 0
  else bet

/-- Mid-round state about to run dealer play: player 17 vs dealer 13
with a 4 on the supply. -/
def resolveDemoState : GameState :=
  { initState [⟨Rank.four⟩] with
    playerHands := [[⟨Rank.ten⟩, ⟨Rank.seven⟩]]
    playerBets := [100]
    playerBalance := 900
    dealerHand := [⟨Rank.five⟩, ⟨Rank.eight⟩]
    currentPhase := GamePhase.dealerTurn }

/-- The state after a dealer-only natural blackjack that consumed the
whole balance. -/
def dbjState : GameState :=
  (startRoundSpec 1000 (initState dealerBJSupply)).2

/-- The parallel per-hand bookkeeping invariant of the claim. -/
def StateInv (s : GameState) : Prop :=
  s.playerBets.length = s.playerHands.length ∧
    s.gameOutcomes.length = s.playerHands.length ∧
    s.activeHandIndex < s.playerHands.length

/-- States reachable through the public operations of the engine. -/
inductive Reachable : GameState → Prop
  | init (supply : List Card) : Reachable (initState supply)
  | startRound {s : GameState} {bet : Int} {out : Option GameOutcome} {s' : GameState} :
      Reachable s → startGame bet s = Except.ok (out, s') → Reachable s'
  | action {s : GameState} {a : PlayerAction} {s' : GameState} :
      Reachable s → handleAction a s = some (Except.ok s') → Reachable s'
  | dealer {s s' : GameState} : Reachable s → dealerPlay s = some s' → Reachable s'
  | settle {s : GameState} : Reachable s → Reachable (checkAllHandsOutcome s)
  | fresh {s : GameState} : Reachable s → Reachable (newRound s)
  | restart {s : GameState} : Reachable s → Reachable (restartGame s)

/-! ### Theorems -/

theorem sumPoints_eq_minSum_add (hand : List Card) :
    sumPoints hand = minSum hand + 10 * countAces hand := by
  induction hand with
  | nil => simp [sumPoints, minSum, countAces]
  | cons c cs ih =>
    have hstep : cardPoints c.value = minPoints c.value +
        (if c.value == Rank.ace then 10 else 0) := by
      cases c with
      | mk v => cases v <;> simp [cardPoints, minPoints]
    simp only [sumPoints, minSum, countAces, List.map_cons, List.sum_cons,
      List.countP_cons] at *
    rw [hstep, ih]
    by_cases h : c.value = Rank.ace
    · simp [h]; ring
    · simp [h]; ring

theorem aceChoiceTotals_cons_of_ne (c : Card) (cs : List Card)
    (h : c.value ≠ Rank.ace) :
    aceChoiceTotals (c :: cs) = (aceChoiceTotals cs).map (· + cardPoints c.value) := by
  cases hv : c.value <;> simp_all [aceChoiceTotals]

theorem aceChoiceTotals_cons_ace (c : Card) (cs : List Card)
    (h : c.value = Rank.ace) :
    aceChoiceTotals (c :: cs) =
      (aceChoiceTotals cs).map (· + 1) ++ (aceChoiceTotals cs).map (· + 11) := by
  simp [aceChoiceTotals, h]

theorem countAces_cons (c : Card) (cs : List Card) :
    countAces (c :: cs) = countAces cs + (if c.value = Rank.ace then 1 else 0) := by
  simp [countAces, List.countP_cons]

theorem minSum_cons (c : Card) (cs : List Card) :
    minSum (c :: cs) = minPoints c.value + minSum cs := by
  simp [minSum]

theorem minPoints_of_ne (r : Rank) (h : r ≠ Rank.ace) :
    minPoints r = cardPoints r := by
  cases r <;> simp_all [minPoints]

theorem mem_aceChoiceTotals (hand : List Card) (t : Nat) :
    t ∈ aceChoiceTotals hand ↔
      ∃ k, k ≤ countAces hand ∧ t = minSum hand + 10 * k := by
  induction hand generalizing t with
  | nil =>
    simp [aceChoiceTotals, countAces, minSum]
  | cons c cs ih =>
    by_cases hv : c.value = Rank.ace
    · rw [aceChoiceTotals_cons_ace c cs hv]
      simp only [countAces_cons, minSum_cons, hv, minPoints, eq_self_iff_true,
        if_true, List.mem_append, List.mem_map]
      constructor
      · rintro (⟨u, hu, rfl⟩ | ⟨u, hu, rfl⟩)
        · rcases (ih u).1 hu with ⟨k, hk, rfl⟩
          exact ⟨k, by omega, by ring⟩
        · rcases (ih u).1 hu with ⟨k, hk, rfl⟩
          exact ⟨k + 1, by omega, by ring⟩
      · rintro ⟨k, hk, rfl⟩
        by_cases hka : k ≤ countAces cs
        · refine Or.inl ⟨minSum cs + 10 * k, (ih _).2 ⟨k, hka, rfl⟩, by ring⟩
        · have hk1 : k = countAces cs + 1 := by omega
          refine Or.inr ⟨minSum cs + 10 * (k - 1), (ih _).2 ⟨k - 1, by omega, rfl⟩, ?_⟩
          omega
    · rw [aceChoiceTotals_cons_of_ne c cs hv]
      simp only [countAces_cons, minSum_cons, hv, if_neg hv,
        minPoints_of_ne c.value hv, List.mem_map, Nat.add_zero]
      constructor
      · rintro ⟨u, hu, rfl⟩
        rcases (ih u).1 hu with ⟨k, hk, rfl⟩
        exact ⟨k, hk, by ring⟩
      · rintro ⟨k, hk, rfl⟩
        exact ⟨minSum cs + 10 * k, (ih _).2 ⟨k, hk, rfl⟩, by ring⟩

/-- The reduction loop, started at the all-aces-eleven total, returns an
achievable total that is the best one `≤ 21` when one exists, and the
minimum achievable total otherwise. -/
theorem reduceAces_spec (a m : Nat) :
    (∃ k, k ≤ a ∧ reduceAces (m + 10 * a) a = m + 10 * k) ∧
      (m ≤ 21 → reduceAces (m + 10 * a) a ≤ 21 ∧
        ∀ k, k ≤ a → m + 10 * k ≤ 21 → m + 10 * k ≤ reduceAces (m + 10 * a) a) ∧
      (21 < m → reduceAces (m + 10 * a) a = m) := by
  induction a with
  | zero =>
    refine ⟨⟨0, le_rfl, by simp [reduceAces]⟩, ?_, ?_⟩
    · intro hm
      constructor
      · simpa [reduceAces] using hm
      · intro k hk _
        interval_cases k
        simp [reduceAces]
    · intro _
      simp [reduceAces]
  | succ a ih =>
    by_cases h : 21 < m + 10 * (a + 1)
    · have hred : reduceAces (m + 10 * (a + 1)) (a + 1) = reduceAces (m + 10 * a) a := by
        have : m + 10 * (a + 1) - 10 = m + 10 * a := by omega
        simp [reduceAces, h, this]
      refine ⟨?_, ?_, ?_⟩
      · rcases ih.1 with ⟨k, hk, heq⟩
        exact ⟨k, Nat.le_succ_of_le hk, by rw [hred]; exact heq⟩
      · intro hm
        rcases ih.2.1 hm with ⟨hle, hmax⟩
        refine ⟨by rw [hred]; exact hle, ?_⟩
        intro k hk hk21
        rw [hred]
        have hka : k ≤ a := by omega
        exact hmax k hka hk21
      · intro hm
        rw [hred]
        exact ih.2.2 hm
    · have hred : reduceAces (m + 10 * (a + 1)) (a + 1) = m + 10 * (a + 1) := by
        simp [reduceAces, h]
      refine ⟨⟨a + 1, le_rfl, hred⟩, ?_, ?_⟩
      · intro _
        refine ⟨by omega, ?_⟩
        intro k hk _
        rw [hred]
        omega
      · intro hm
        omega

theorem minSum_le_calculateHandValue (hand : List Card) :
    minSum hand ≤ calculateHandValue hand := by
  have h : calculateHandValue hand =
      reduceAces (minSum hand + 10 * countAces hand) (countAces hand) := by
    rw [calculateHandValue, sumPoints_eq_minSum_add]
  obtain ⟨k, _, hkeq⟩ := (reduceAces_spec (countAces hand) (minSum hand)).1
  rw [h, hkeq]
  omega

/-- C1: `calculateHandValue` is a pure function of the hand equal to the
best achievable blackjack total: among all totals obtained by scoring
each ACE as 1 or 11 (2-10 literal, faces as 10) it returns the largest
one that is at most 21, or the minimum possible total when every choice
exceeds 21; in particular the four example hands evaluate as the spec
states. -/
theorem calculateHandValue_best (hand : List Card) :
    calculateHandValue hand ∈ aceChoiceTotals hand ∧
      ((∃ t ∈ aceChoiceTotals hand, t ≤ 21) →
        calculateHandValue hand ≤ 21 ∧
          ∀ t ∈ aceChoiceTotals hand, t ≤ 21 → t ≤ calculateHandValue hand) ∧
      ((∀ t ∈ aceChoiceTotals hand, 21 < t) →
        ∀ t ∈ aceChoiceTotals hand, calculateHandValue hand ≤ t) ∧
      calculateHandValue [⟨Rank.ace⟩, ⟨Rank.king⟩] = 21 ∧
      calculateHandValue [⟨Rank.ace⟩, ⟨Rank.five⟩] = 16 ∧
      calculateHandValue [⟨Rank.ace⟩, ⟨Rank.ace⟩, ⟨Rank.nine⟩] = 21 ∧
      calculateHandValue [⟨Rank.ace⟩, ⟨Rank.ace⟩, ⟨Rank.nine⟩, ⟨Rank.three⟩] = 14 := by
  have hval : calculateHandValue hand =
      reduceAces (minSum hand + 10 * countAces hand) (countAces hand) := by
    rw [calculateHandValue, sumPoints_eq_minSum_add]
  obtain ⟨⟨k, hk, hkeq⟩, hbest, hminv⟩ := reduceAces_spec (countAces hand) (minSum hand)
  refine ⟨?_, ?_, ?_, by rfl, by rfl, by rfl, by rfl⟩
  · exact (mem_aceChoiceTotals hand _).2 ⟨k, hk, by rw [hval, hkeq]⟩
  · rintro ⟨t, ht, ht21⟩
    obtain ⟨k1, hk1, rfl⟩ := (mem_aceChoiceTotals hand t).1 ht
    have hm : minSum hand ≤ 21 := by omega
    obtain ⟨h1, h2⟩ := hbest hm
    refine ⟨by rw [hval]; exact h1, ?_⟩
    intro u hu hu21
    obtain ⟨k2, hk2, rfl⟩ := (mem_aceChoiceTotals hand u).1 hu
    rw [hval]
    exact h2 k2 hk2 hu21
  · intro hall t ht
    obtain ⟨k1, _, rfl⟩ := (mem_aceChoiceTotals hand t).1 ht
    have hmem0 : minSum hand ∈ aceChoiceTotals hand :=
      (mem_aceChoiceTotals hand _).2 ⟨0, Nat.zero_le _, by omega⟩
    have h21 : 21 < minSum hand := hall _ hmem0
    rw [hval, hminv h21]
    omega

theorem calculateHandValue_best_witness :
    calculateHandValue [⟨Rank.ace⟩, ⟨Rank.five⟩] ∈
        aceChoiceTotals [⟨Rank.ace⟩, ⟨Rank.five⟩] ∧
      calculateHandValue [⟨Rank.ace⟩, ⟨Rank.five⟩] ≤ 21 := by
  have h := calculateHandValue_best [⟨Rank.ace⟩, ⟨Rank.five⟩]
  exact ⟨h.1, (h.2.1 ⟨16, by decide, by decide⟩).1⟩

/-- C3 counterexample: a bet of 0 is not a positive multiple of 10, yet
`startGame` accepts it; and a bet of 15 against a balance of 10 exceeds
the balance yet fails with the divisibility error, not
InsufficientBalance. -/
theorem startGame_bet_guard_counterexample :
    ((0 : Int) % 10 = 0 ∧ ¬ (0 < (0 : Int))) ∧
      (startGame 0 (initState demoSupply)).isOk = true ∧
      startGame 15 { initState demoSupply with playerBalance := 10 } =
        Except.error GameError.invalidBet :=
  ⟨⟨by decide, by decide⟩, by rfl, by rfl⟩

/-- With both guards satisfied, `startGame` computes exactly the
claim-side description of the deal. -/
theorem startGame_eq_startRoundSpec (bet : Int) (s : GameState)
    (h10 : bet % 10 = 0) (hbal : bet ≤ s.playerBalance) :
    startGame bet s = Except.ok (startRoundSpec bet s) := by
  have h3 : ¬ s.playerBalance < bet := not_lt.2 hbal
  rw [startGame, if_neg (by simp [h10]), if_neg h3, startRoundSpec]
  rcases hp : isNaturalBlackjack ((s.supply.take 4).take 2) <;>
    rcases hd : isNaturalBlackjack ((s.supply.take 4).drop 2) <;>
    simp [activeHand, hp, hd]

/-- C3 (amended): `startGame(bet)` fails with InvalidBet exactly when the
bet is not a multiple of 10 (zero and negative multiples are accepted),
otherwise fails with InsufficientBalance exactly when the bet exceeds the
balance, and succeeds otherwise; failing calls throw before any mutation,
returning no successor state. -/
theorem startGame_guard_spec (bet : Int) (s : GameState) :
    (bet % 10 ≠ 0 → startGame bet s = Except.error GameError.invalidBet) ∧
      (bet % 10 = 0 → s.playerBalance < bet →
        startGame bet s = Except.error GameError.insufficientBalance) ∧
      (bet % 10 = 0 → bet ≤ s.playerBalance → (startGame bet s).isOk = true) := by
  refine ⟨?_, ?_, ?_⟩
  · intro h
    simp [startGame, h]
  · intro h1 h2
    simp [startGame, h1, h2]
  · intro h1 h2
    rw [startGame_eq_startRoundSpec bet s h1 h2]
    rfl

theorem startGame_guard_spec_witness :
    (5 : Int) % 10 ≠ 0 ∧
      startGame 5 (initState demoSupply) = Except.error GameError.invalidBet :=
  ⟨by decide, (startGame_guard_spec 5 (initState demoSupply)).1 (by decide)⟩

/-- C4: a successful `startGame(bet)` behaves exactly as the claim's
description `startRoundSpec`: it debits the bet, deals cards 0,1 to the
player and 2,3 to the dealer (two cards each when at least 4 remain),
immediately evaluates the natural-blackjack check for both hands
(both: Push and refund; player only: credit floor(bet*2.5), outcome
PlayerBlackjack; dealer only: no credit, DealerBlackjack — all with
Phase=Outcome; neither: Phase=PlayerTurn, outcome null), and returns the
resolved outcome or null. -/
theorem startGame_deal_spec (bet : Int) (s : GameState)
    (h10 : bet % 10 = 0) (hbal : bet ≤ s.playerBalance) :
    startGame bet s = Except.ok (startRoundSpec bet s) ∧
      (4 ≤ s.supply.length →
        ((startRoundSpec bet s).2.playerHands.getD 0 []).length = 2 ∧
          (startRoundSpec bet s).2.dealerHand.length = 2) := by
  constructor
  · exact startGame_eq_startRoundSpec bet s h10 hbal
  · intro hsup
    have hlen1 : ((s.supply.take 4).take 2).length = 2 := by
      simp [List.length_take]
      omega
    have hlen2 : ((s.supply.take 4).drop 2).length = 2 := by
      simp [List.length_take]
      omega
    rw [startRoundSpec]
    rcases hp : isNaturalBlackjack ((s.supply.take 4).take 2) <;>
      rcases hd : isNaturalBlackjack ((s.supply.take 4).drop 2) <;>
      simp [hp, hd, hlen1, hlen2]

theorem startGame_deal_spec_witness :
    (100 : Int) % 10 = 0 ∧
      (100 : Int) ≤ (initState demoSupply).playerBalance ∧
      startGame 100 (initState demoSupply) =
        Except.ok (startRoundSpec 100 (initState demoSupply)) :=
  ⟨by decide, by decide,
    (startGame_deal_spec 100 (initState demoSupply) (by decide) (by decide)).1⟩

/-- C5: `Split` succeeds exactly on a 2-card active hand of equal card
values that is not split-originated, with balance covering the active
bet; on success it debits a second stake, replaces the active hand by
its first card plus one drawn card, appends the second card plus one
drawn card with an equal bet and null outcome, marks both indices
split-originated (so neither can split again), and leaves
activeHandIndex and the phase unchanged. -/
theorem splitHand_spec (s : GameState) (c1 c2 a b : Card) (rest : List Card)
    (hhand : activeHand s = [c1, c2]) (hsup : s.supply = a :: b :: rest)
    (hcan : canSplit s = true) :
    handleAction PlayerAction.split s = some (Except.ok (splitHand s)) ∧
      getCardValue c1 = getCardValue c2 ∧
      s.splitHandsIndices.contains s.activeHandIndex = false ∧
      activeHandBet s ≤ s.playerBalance ∧
      s.activeHandIndex < s.playerHands.length ∧
      (splitHand s).playerBalance = s.playerBalance - activeHandBet s ∧
      (splitHand s).playerHands =
        s.playerHands.set s.activeHandIndex [c1, a] ++ [[c2, b]] ∧
      (splitHand s).playerBets = s.playerBets ++ [activeHandBet s] ∧
      (splitHand s).gameOutcomes = s.gameOutcomes ++ [none] ∧
      (splitHand s).splitHandsIndices =
        s.splitHandsIndices ++ [s.activeHandIndex, s.playerHands.length] ∧
      (splitHand s).activeHandIndex = s.activeHandIndex ∧
      (splitHand s).currentPhase = s.currentPhase ∧
      canSplit (splitHand s) = false ∧
      canSplit { splitHand s with activeHandIndex := s.playerHands.length } = false ∧
      (∀ s3 : GameState, canSplit s3 = false →
        handleAction PlayerAction.split s3 =
          some (Except.error GameError.cannotSplit)) := by
  have hparts : getCardValue c1 = getCardValue c2 ∧
      s.splitHandsIndices.contains s.activeHandIndex = false ∧
      activeHandBet s ≤ s.playerBalance := by
    rw [canSplit, hhand] at hcan
    simp only [Bool.and_eq_true, Bool.not_eq_true', beq_iff_eq,
      decide_eq_true_eq] at hcan
    exact ⟨hcan.2.1, hcan.1, hcan.2.2⟩
  have hidx : s.activeHandIndex < s.playerHands.length := by
    by_contra hge
    have : activeHand s = [] :=
      List.getD_eq_default _ _ (le_of_not_lt hge)
    rw [hhand] at this
    simp at this
  have heff : (splitHand s).playerBalance = s.playerBalance - activeHandBet s ∧
      (splitHand s).playerHands =
        s.playerHands.set s.activeHandIndex [c1, a] ++ [[c2, b]] ∧
      (splitHand s).playerBets = s.playerBets ++ [activeHandBet s] ∧
      (splitHand s).gameOutcomes = s.gameOutcomes ++ [none] ∧
      (splitHand s).splitHandsIndices =
        s.splitHandsIndices ++ [s.activeHandIndex, s.playerHands.length] ∧
      (splitHand s).activeHandIndex = s.activeHandIndex ∧
      (splitHand s).currentPhase = s.currentPhase := by
    rw [splitHand, hhand, hsup]
    simp [List.getD]
  have hsetlen : (s.playerHands.set s.activeHandIndex [c1, a]).length =
      s.playerHands.length := by
    simp
  have hactive1 : activeHand (splitHand s) = [c1, a] := by
    rw [activeHand, heff.2.1, heff.2.2.2.2.2.1]
    rw [List.getD_append _ _ _ _ (by rw [hsetlen]; exact hidx)]
    rw [List.getD_eq_getElem _ _ (by rw [hsetlen]; exact hidx)]
    simp
  have hactive2 :
      activeHand { splitHand s with activeHandIndex := s.playerHands.length } =
        [c2, b] := by
    rw [activeHand]
    simp only [heff.2.1]
    rw [List.getD_append_right _ _ _ _ (by rw [hsetlen])]
    simp [hsetlen]
  have hmark1 : ((splitHand s).splitHandsIndices).contains
      (splitHand s).activeHandIndex = true := by
    rw [heff.2.2.2.2.1, heff.2.2.2.2.2.1]
    simp [List.contains, List.elem_eq_mem]
  have hmark2 : ((splitHand s).splitHandsIndices).contains
      s.playerHands.length = true := by
    rw [heff.2.2.2.2.1]
    simp [List.contains, List.elem_eq_mem]
  refine ⟨by simp [handleAction, hcan], hparts.1, hparts.2.1, hparts.2.2, hidx,
    heff.1, heff.2.1, heff.2.2.1, heff.2.2.2.1, heff.2.2.2.2.1,
    heff.2.2.2.2.2.1, heff.2.2.2.2.2.2, ?_, ?_, ?_⟩
  · rw [canSplit, hactive1, hmark1]
    simp
  · rw [canSplit, hactive2]
    have : ({ splitHand s with
        activeHandIndex := s.playerHands.length } : GameState).splitHandsIndices.contains
        ({ splitHand s with activeHandIndex := s.playerHands.length } : GameState).activeHandIndex = true := by
      simpa using hmark2
    rw [this]
    simp
  · intro s3 h
    simp [handleAction, h]

theorem splitHand_spec_witness :
    activeHand splitDemoState = [⟨Rank.eight⟩, ⟨Rank.eight⟩] ∧
      splitDemoState.supply = ⟨Rank.three⟩ :: ⟨Rank.four⟩ :: [] ∧
      canSplit splitDemoState = true ∧
      handleAction PlayerAction.split splitDemoState =
        some (Except.ok (splitHand splitDemoState)) ∧
      canSplit (splitHand splitDemoState) = false :=
  let h := splitHand_spec splitDemoState ⟨Rank.eight⟩ ⟨Rank.eight⟩
    ⟨Rank.three⟩ ⟨Rank.four⟩ [] (by rfl) (by rfl) (by rfl)
  ⟨by rfl, by rfl, by rfl, h.1, h.2.2.2.2.2.2.2.2.2.2.2.2.1⟩

theorem endHandOrDealer_ne_error (s : GameState) (e : GameError) :
    endHandOrDealer s ≠ some (Except.error e) := by
  rw [endHandOrDealer]
  rcases h : moveToNextHand s with ⟨b, s1⟩
  cases b
  · rcases hd : dealerPlay { s1 with currentPhase := GamePhase.dealerTurn } with _ | s2 <;>
      simp [hd]
  · simp

/-- C6 counterexample: in the Betting phase, `handleAction(Hit)` neither
fails with IllegalAction nor leaves the state unchanged — it draws a
card into the hand. -/
theorem handleAction_phase_counterexample :
    bettingPhaseState.currentPhase = GamePhase.betting ∧
      handleAction PlayerAction.hit bettingPhaseState =
        some (Except.ok
          { bettingPhaseState with
            supply := []
            playerHands := [[⟨Rank.ten⟩, ⟨Rank.seven⟩, ⟨Rank.two⟩]] }) ∧
      ({ bettingPhaseState with
          supply := []
          playerHands := [[⟨Rank.ten⟩, ⟨Rank.seven⟩, ⟨Rank.two⟩]] } : GameState) ≠
        bettingPhaseState :=
  ⟨rfl, by rfl, by decide⟩

/-- C6 (amended): `handleAction` checks no phase at all: Hit, Stand and
Split run in whatever phase the engine is in, DoubleDown and Surrender
are silently ignored, and the only error it can raise is the
cannot-split error, exactly when Split is invoked with `canSplit`
false. -/
theorem handleAction_no_guard_spec (s : GameState) (a : PlayerAction) (e : GameError) :
    (handleAction a s = some (Except.error e) ↔
        (a = PlayerAction.split ∧ canSplit s = false ∧ e = GameError.cannotSplit)) ∧
      handleAction PlayerAction.doubleDown s = some (Except.ok s) ∧
      handleAction PlayerAction.surrender s = some (Except.ok s) := by
  refine ⟨?_, rfl, rfl⟩
  cases a with
  | hit =>
    constructor
    · intro h
      rw [handleAction] at h
      split at h
      · exact absurd h (endHandOrDealer_ne_error _ e)
      · simp at h
    · rintro ⟨h, -, -⟩
      cases h
  | stand =>
    constructor
    · intro h
      rw [handleAction] at h
      exact absurd h (endHandOrDealer_ne_error _ e)
    · rintro ⟨h, -, -⟩
      cases h
  | split =>
    constructor
    · intro h
      by_cases hc : canSplit s
      · rw [handleAction, if_pos hc] at h
        simp at h
      · rw [handleAction, if_neg hc] at h
        simp only [Option.some_inj] at h
        refine ⟨rfl, by simpa using hc, ?_⟩
        cases h
        rfl
    · rintro ⟨-, hc, he⟩
      subst he
      simp [handleAction, hc]
  | doubleDown =>
    constructor
    · intro h
      rw [handleAction] at h
      simp at h
    · rintro ⟨h, -, -⟩
      cases h
  | surrender =>
    constructor
    · intro h
      rw [handleAction] at h
      simp at h
    · rintro ⟨h, -, -⟩
      cases h

theorem handleAction_no_guard_spec_witness :
    handleAction PlayerAction.split (initState []) =
      some (Except.error GameError.cannotSplit) :=
  ((handleAction_no_guard_spec (initState []) PlayerAction.split
      GameError.cannotSplit).1).2 ⟨rfl, by rfl, rfl⟩

/-- C7 counterexample: a PlayerTurn state whose active hand has exactly
2 cards and whose balance covers the bet, where `handleAction(DoubleDown)`
changes nothing — no debit, no doubled bet, no draw, no turn end. -/
theorem doubleDown_counterexample :
    (activeHand splitDemoState).length = 2 ∧
      activeHandBet splitDemoState ≤ splitDemoState.playerBalance ∧
      splitDemoState.currentPhase = GamePhase.playerTurn ∧
      handleAction PlayerAction.doubleDown splitDemoState =
        some (Except.ok splitDemoState) :=
  ⟨by rfl, by decide, rfl, rfl⟩

/-- C7 (amended): `handleAction(DoubleDown)` is not implemented: the
source's switch has no DoubleDown case, so in every state it returns
successfully leaving the engine unchanged. -/
theorem handleAction_doubleDown_noop (s : GameState) :
    handleAction PlayerAction.doubleDown s = some (Except.ok s) := rfl

theorem checkHandOutcome_preserves (s : GameState) (i : Nat) :
    (checkHandOutcome s i).playerHands = s.playerHands ∧
      (checkHandOutcome s i).playerBets = s.playerBets ∧
      (checkHandOutcome s i).dealerHand = s.dealerHand ∧
      (checkHandOutcome s i).supply = s.supply ∧
      (checkHandOutcome s i).currentPhase = s.currentPhase ∧
      (checkHandOutcome s i).activeHandIndex = s.activeHandIndex ∧
      (checkHandOutcome s i).splitHandsIndices = s.splitHandsIndices ∧
      (checkHandOutcome s i).gameOver = s.gameOver ∧
      (checkHandOutcome s i).gameOutcomes.length = s.gameOutcomes.length := by
  rw [checkHandOutcome]
  split
  · simp
  · split
    · simp
    · split <;> simp

theorem foldl_checkHandOutcome_preserves (l : List Nat) : ∀ s : GameState,
    ((l.foldl checkHandOutcome s).playerHands = s.playerHands ∧
      (l.foldl checkHandOutcome s).playerBets = s.playerBets ∧
      (l.foldl checkHandOutcome s).dealerHand = s.dealerHand ∧
      (l.foldl checkHandOutcome s).supply = s.supply ∧
      (l.foldl checkHandOutcome s).currentPhase = s.currentPhase ∧
      (l.foldl checkHandOutcome s).activeHandIndex = s.activeHandIndex ∧
      (l.foldl checkHandOutcome s).splitHandsIndices = s.splitHandsIndices ∧
      (l.foldl checkHandOutcome s).gameOver = s.gameOver ∧
      (l.foldl checkHandOutcome s).gameOutcomes.length = s.gameOutcomes.length) := by
  induction l with
  | nil => intro s; exact ⟨rfl, rfl, rfl, rfl, rfl, rfl, rfl, rfl, rfl⟩
  | cons i l ih =>
    intro s
    have h1 := checkHandOutcome_preserves s i
    have h2 := ih (checkHandOutcome s i)
    rw [List.foldl_cons]
    exact ⟨h2.1.trans h1.1, h2.2.1.trans h1.2.1, h2.2.2.1.trans h1.2.2.1,
      h2.2.2.2.1.trans h1.2.2.2.1, h2.2.2.2.2.1.trans h1.2.2.2.2.1,
      h2.2.2.2.2.2.1.trans h1.2.2.2.2.2.1,
      h2.2.2.2.2.2.2.1.trans h1.2.2.2.2.2.2.1,
      h2.2.2.2.2.2.2.2.1.trans h1.2.2.2.2.2.2.2.1,
      h2.2.2.2.2.2.2.2.2.trans h1.2.2.2.2.2.2.2.2⟩

theorem checkAllHandsOutcome_preserves (s : GameState) :
    (checkAllHandsOutcome s).playerHands = s.playerHands ∧
      (checkAllHandsOutcome s).playerBets = s.playerBets ∧
      (checkAllHandsOutcome s).dealerHand = s.dealerHand ∧
      (checkAllHandsOutcome s).supply = s.supply ∧
      (checkAllHandsOutcome s).currentPhase = s.currentPhase ∧
      (checkAllHandsOutcome s).activeHandIndex = s.activeHandIndex ∧
      (checkAllHandsOutcome s).splitHandsIndices = s.splitHandsIndices ∧
      (checkAllHandsOutcome s).gameOver = s.gameOver ∧
      (checkAllHandsOutcome s).gameOutcomes.length = s.gameOutcomes.length :=
  foldl_checkHandOutcome_preserves (List.range s.playerHands.length) s

theorem dealerDrawLoop_stand (hand supply : List Card)
    (h : 17 ≤ calculateHandValue hand) :
    dealerDrawLoop hand supply = some (hand, supply) := by
  rw [dealerDrawLoop.eq_def, if_neg (by omega)]

theorem dealerDrawLoop_post : ∀ (supply hand h' sup' : List Card),
    dealerDrawLoop hand supply = some (h', sup') → 17 ≤ calculateHandValue h' := by
  intro supply
  induction supply with
  | nil =>
    intro hand h' sup' h
    rw [dealerDrawLoop.eq_def] at h
    split at h
    · cases h
    · cases h
      omega
  | cons c rest ih =>
    intro hand h' sup' h
    rw [dealerDrawLoop.eq_def] at h
    split at h
    · exact ih (hand ++ [c]) h' sup' h
    · cases h
      omega

theorem dealerDrawLoop_total : ∀ (supply hand : List Card),
    17 ≤ minSum hand + supply.length →
      ∃ pr, dealerDrawLoop hand supply = some pr := by
  intro supply
  induction supply with
  | nil =>
    intro hand hlen
    have hmin := minSum_le_calculateHandValue hand
    rw [dealerDrawLoop.eq_def]
    rw [if_neg (by simp at hlen; omega)]
    exact ⟨(hand, []), rfl⟩
  | cons c rest ih =>
    intro hand hlen
    rw [dealerDrawLoop.eq_def]
    split
    · refine ih (hand ++ [c]) ?_
      have hc : 1 ≤ minPoints c.value := by
        rcases c with ⟨v⟩
        cases v <;> simp [minPoints, cardPoints]
      have : minSum (hand ++ [c]) = minSum hand + minPoints c.value := by
        simp [minSum]
      simp at hlen
      omega
    · exact ⟨(hand, c :: rest), rfl⟩

/-- C8: the dealer draw loop never draws into a hand already valued 17
or more; whenever it completes, the dealer hand is valued at least 17;
and when every draw it needs is answered (at least 17 cards remain, one
per iteration the loop could possibly run), `dealerPlay` terminates with
the dealer hand valued at least 17 and Phase = Outcome. -/
theorem dealerPlay_spec (s : GameState) :
    (17 ≤ calculateHandValue s.dealerHand →
        dealerDrawLoop s.dealerHand s.supply = some (s.dealerHand, s.supply)) ∧
      (∀ h sup h' sup', dealerDrawLoop h sup = some (h', sup') →
        17 ≤ calculateHandValue h') ∧
      (17 ≤ s.supply.length →
        ∃ s', dealerPlay s = some s' ∧
          17 ≤ calculateHandValue s'.dealerHand ∧
          s'.currentPhase = GamePhase.outcome) := by
  refine ⟨dealerDrawLoop_stand s.dealerHand s.supply, ?_, ?_⟩
  · intro h sup h' sup' hl
    exact dealerDrawLoop_post sup h h' sup' hl
  · intro hlen
    obtain ⟨⟨h', sup'⟩, hpr⟩ := dealerDrawLoop_total s.supply s.dealerHand (by omega)
    refine ⟨_, by rw [dealerPlay, hpr], ?_, ?_⟩
    · have hpres := checkAllHandsOutcome_preserves
        { s with dealerHand := h', supply := sup', currentPhase := GamePhase.outcome }
      rw [hpres.2.2.1]
      exact dealerDrawLoop_post s.supply s.dealerHand h' sup' hpr
    · have hpres := checkAllHandsOutcome_preserves
        { s with dealerHand := h', supply := sup', currentPhase := GamePhase.outcome }
      rw [hpres.2.2.2.2.1]

theorem dealerPlay_spec_witness :
    17 ≤ (initState (List.replicate 17 (⟨Rank.ten⟩ : Card))).supply.length ∧
      ∃ s', dealerPlay (initState (List.replicate 17 (⟨Rank.ten⟩ : Card))) = some s' ∧
        17 ≤ calculateHandValue s'.dealerHand ∧
        s'.currentPhase = GamePhase.outcome :=
  ⟨by decide,
    (dealerPlay_spec (initState (List.replicate 17 (⟨Rank.ten⟩ : Card)))).2.2 (by decide)⟩

theorem checkHandOutcome_eq (s : GameState) (i : Nat) :
    checkHandOutcome s i =
      { s with
        playerBalance := s.playerBalance +
          handCredit s.dealerHand (s.playerHands.getD i []) (s.playerBets.getD i 0)
        gameOutcomes := s.gameOutcomes.set i
          (some (handResult s.dealerHand (s.playerHands.getD i []))) } := by
  rw [checkHandOutcome, handResult, handCredit]
  simp only [List.getD_eq_getElem?_getD]
  by_cases hb : isBust (s.playerHands[i]?.getD [])
  · simp [hb]
  · by_cases hd : isBust s.dealerHand
    · simp [hb, hd]
    · have hb21 : ¬ 21 < calculateHandValue (s.playerHands[i]?.getD []) := by
        simpa [isBust] using hb
      have hd21 : ¬ 21 < calculateHandValue s.dealerHand := by
        simpa [isBust] using hd
      rw [determineWinner]
      by_cases h1 : calculateHandValue s.dealerHand <
          calculateHandValue (s.playerHands[i]?.getD [])
      · simp [hb, hd, hb21, hd21, h1]
      · by_cases h2 : calculateHandValue (s.playerHands[i]?.getD []) <
            calculateHandValue s.dealerHand
        · simp [hb, hd, hb21, hd21, h1, h2]
        · simp [hb, hd, hb21, hd21, h1, h2]

theorem foldl_checkHandOutcome_spec (l : List Nat) : ∀ s : GameState,
    ((l.foldl checkHandOutcome s).playerBalance =
        s.playerBalance + (l.map (fun i =>
          handCredit s.dealerHand (s.playerHands.getD i [])
            (s.playerBets.getD i 0))).sum) ∧
      ((l.foldl checkHandOutcome s).gameOutcomes =
        l.foldl (fun acc i =>
          acc.set i (some (handResult s.dealerHand (s.playerHands.getD i []))))
          s.gameOutcomes) := by
  induction l with
  | nil =>
    intro s
    simp
  | cons i l ih =>
    intro s
    have hpres := checkHandOutcome_preserves s i
    obtain ⟨hbal, hout⟩ := ih (checkHandOutcome s i)
    rw [List.foldl_cons]
    constructor
    · rw [hbal]
      simp only [hpres.1, hpres.2.1, hpres.2.2.1]
      rw [checkHandOutcome_eq]
      simp [add_assoc]
    · rw [hout]
      simp only [hpres.1, hpres.2.1, hpres.2.2.1]
      rw [checkHandOutcome_eq]
      simp

theorem foldl_set_length (g : Nat → Option GameOutcome) :
    ∀ (l : List Nat) (acc : List (Option GameOutcome)),
      (l.foldl (fun a j => a.set j (g j)) acc).length = acc.length := by
  intro l
  induction l with
  | nil => intro acc; rfl
  | cons j l ih =>
    intro acc
    rw [List.foldl_cons, ih]
    simp

theorem foldl_set_getElem? (g : Nat → Option GameOutcome) :
    ∀ (m : Nat) (acc : List (Option GameOutcome)) (i : Nat), i < m → i < acc.length →
      ((List.range m).foldl (fun a j => a.set j (g j)) acc)[i]? = some (g i) := by
  intro m
  induction m with
  | zero =>
    intro acc i h1
    omega
  | succ m ih =>
    intro acc i h1 h2
    rw [List.range_succ, List.foldl_append, List.foldl_cons, List.foldl_nil]
    by_cases he : i = m
    · subst he
      rw [List.getElem?_set_self (by rw [foldl_set_length]; exact h2)]
    · rw [List.getElem?_set_ne (by omega)]
      exact ih acc i (by omega) h2

/-- C2: once dealer play finishes, every player hand index is resolved
against the final dealer hand exactly as the claim orders the cases
(bust first with no credit even under a dealer bust, then dealer bust
crediting bet*2, then strict comparisons crediting bet*2 / nothing /
refunding the bet on a push), and the phase is Outcome. -/
theorem dealerPlay_outcome_resolution (s s' : GameState)
    (hlen : s.gameOutcomes.length = s.playerHands.length)
    (hdp : dealerPlay s = some s') :
    s'.currentPhase = GamePhase.outcome ∧
      s'.playerHands = s.playerHands ∧
      (∀ i, i < s.playerHands.length →
        s'.gameOutcomes.getD i none =
          some (handResult s'.dealerHand (s.playerHands.getD i []))) ∧
      s'.playerBalance = s.playerBalance +
        ((List.range s.playerHands.length).map
          (fun i => handCredit s'.dealerHand (s.playerHands.getD i [])
            (s.playerBets.getD i 0))).sum := by
  rw [dealerPlay] at hdp
  rcases hloop : dealerDrawLoop s.dealerHand s.supply with _ | ⟨h1, sup1⟩
  · rw [hloop] at hdp
    cases hdp
  · rw [hloop] at hdp
    simp only [Option.some_inj] at hdp
    subst hdp
    have hpres := checkAllHandsOutcome_preserves
      { s with dealerHand := h1, supply := sup1, currentPhase := GamePhase.outcome }
    have hspec := foldl_checkHandOutcome_spec (List.range (({ s with dealerHand := h1, supply := sup1, currentPhase := GamePhase.outcome } : GameState)).playerHands.length) { s with dealerHand := h1, supply := sup1, currentPhase := GamePhase.outcome }
    refine ⟨hpres.2.2.2.2.1, hpres.1, ?_, ?_⟩
    · intro i hi
      have hdh := hpres.2.2.1
      rw [checkAllHandsOutcome] at hdh
      rw [checkAllHandsOutcome, hspec.2, hdh]
      simp only [List.getD_eq_getElem?_getD]
      rw [foldl_set_getElem? _ _ _ _ hi (by simpa using hlen ▸ hi)]
      rfl
    · have hdh := hpres.2.2.1
      rw [checkAllHandsOutcome] at hdh
      rw [checkAllHandsOutcome, hspec.1, hdh]

theorem dealerPlay_outcome_resolution_witness :
    resolveDemoState.gameOutcomes.length = resolveDemoState.playerHands.length ∧
      ∃ s', dealerPlay resolveDemoState = some s' ∧
        s'.currentPhase = GamePhase.outcome := by
  have hdp : dealerPlay resolveDemoState =
      some (checkAllHandsOutcome
        { resolveDemoState with
          dealerHand := [⟨Rank.five⟩, ⟨Rank.eight⟩, ⟨Rank.four⟩]
          supply := []
          currentPhase := GamePhase.outcome }) := by rfl
  have h := dealerPlay_outcome_resolution resolveDemoState _ (by rfl) hdp
  exact ⟨by rfl, _, hdp, h.1⟩

/-- C9 counterexample: with GameOver set and the balance at 0 a
zero-bet `startGame` still starts a round, and a round resolved by the
dealer-blackjack check at the deal leaves the balance at 0 without
setting GameOver. -/
theorem gameOver_counterexample :
    gameOverState.gameOver = true ∧
      (startGame 0 gameOverState).isOk = true ∧
      startGame 1000 (initState dealerBJSupply) =
        Except.ok (some GameOutcome.dealerBlackjack, dbjState) ∧
      dbjState.playerBalance = 0 ∧
      dbjState.gameOver = false ∧
      dbjState.currentPhase = GamePhase.outcome :=
  ⟨rfl, by rfl, by rfl, by rfl, rfl, rfl⟩

/-- C9 (amended): `checkGameOver` (run only after dealer play inside
handleAction) sets GameOver exactly when balance ≤ 0; `startGame` never
consults GameOver, but with balance ≤ 0 every positive bet fails (zero
bets still start a round); a last-hand Stand that completes leaves
GameOver set exactly when the settled balance is ≤ 0; and `restartGame`
resets the balance to 1000, clears GameOver and returns to Betting. -/
theorem gameOver_spec (s : GameState) (bet : Int) :
    ((checkGameOver s).gameOver = true ↔ s.playerBalance ≤ 0) ∧
      (s.playerBalance ≤ 0 → 0 < bet → ∃ e, startGame bet s = Except.error e) ∧
      (moveToNextHand s = (false, s) →
        ∀ s', handleAction PlayerAction.stand s = some (Except.ok s') →
          (s'.gameOver = true ↔ s'.playerBalance ≤ 0)) ∧
      ((restartGame s).playerBalance = 1000 ∧
        (restartGame s).gameOver = false ∧
        (restartGame s).currentPhase = GamePhase.betting) := by
  refine ⟨by simp [checkGameOver], ?_, ?_, rfl, rfl, rfl⟩
  · intro hbal hbet
    by_cases h10 : bet % 10 = 0
    · refine ⟨GameError.insufficientBalance, ?_⟩
      rw [startGame, if_neg (by simp [h10]), if_pos (by omega)]
    · exact ⟨GameError.invalidBet, by rw [startGame, if_pos h10]⟩
  · intro hmv s' h
    rw [handleAction, endHandOrDealer, hmv] at h
    rcases hd : dealerPlay { s with currentPhase := GamePhase.dealerTurn } with _ | s2
    · simp [hd] at h
    · simp [hd] at h
      subst h
      simp [checkGameOver]

theorem gameOver_spec_witness :
    gameOverState.playerBalance ≤ 0 ∧ (0 : Int) < 10 ∧
      (∃ e, startGame 10 gameOverState = Except.error e) ∧
      (restartGame gameOverState).playerBalance = 1000 :=
  ⟨by decide, by decide,
    (gameOver_spec gameOverState 10).2.1 (by decide) (by decide),
    (gameOver_spec gameOverState 10).2.2.2.1⟩

theorem startGame_ok_inv (bet : Int) (s : GameState)
    (out : Option GameOutcome) (s' : GameState)
    (h : startGame bet s = Except.ok (out, s')) : StateInv s' := by
  by_cases h1 : bet % 10 = 0
  · by_cases h2 : bet ≤ s.playerBalance
    · rw [startGame_eq_startRoundSpec bet s h1 h2] at h
      simp only [Except.ok.injEq] at h
      have hs' : s' = (startRoundSpec bet s).2 := by rw [h]
      subst hs'
      rw [startRoundSpec]
      rcases hp : isNaturalBlackjack ((s.supply.take 4).take 2) <;>
        rcases hd : isNaturalBlackjack ((s.supply.take 4).drop 2) <;>
        simp [StateInv, hp, hd]
    · rw [startGame, if_neg (by simp [h1]), if_pos (by omega)] at h
      cases h
  · rw [startGame, if_pos h1] at h
    cases h

theorem checkAllHandsOutcome_inv (s : GameState) (hinv : StateInv s) :
    StateInv (checkAllHandsOutcome s) := by
  have hp := checkAllHandsOutcome_preserves s
  exact ⟨by rw [hp.2.1, hp.1]; exact hinv.1,
    by rw [hp.2.2.2.2.2.2.2.2, hp.1]; exact hinv.2.1,
    by rw [hp.2.2.2.2.2.1, hp.1]; exact hinv.2.2⟩

theorem dealerPlay_inv (s s' : GameState) (hinv : StateInv s)
    (h : dealerPlay s = some s') : StateInv s' := by
  rw [dealerPlay] at h
  rcases hl : dealerDrawLoop s.dealerHand s.supply with _ | ⟨h1, sup1⟩ <;> rw [hl] at h
  · cases h
  · simp only [Option.some_inj] at h
    subst h
    exact checkAllHandsOutcome_inv _ ⟨hinv.1, hinv.2.1, hinv.2.2⟩

theorem hitActive_inv (s : GameState) (hinv : StateInv s) :
    StateInv (hitActive s) := by
  rcases hs : s.supply with _ | ⟨c, rest⟩ <;>
    simp [hitActive, hs, StateInv, hinv.1, hinv.2.1, hinv.2.2]

theorem splitHand_inv (s : GameState) (hinv : StateInv s) :
    StateInv (splitHand s) := by
  have h1 := hinv.1
  have h2 := hinv.2.1
  have h3 := hinv.2.2
  refine ⟨?_, ?_, ?_⟩
  all_goals simp [splitHand, h1, h2]
  omega

theorem endHandOrDealer_inv (s s' : GameState) (hinv : StateInv s)
    (h : endHandOrDealer s = some (Except.ok s')) : StateInv s' := by
  rw [endHandOrDealer] at h
  rcases hm : moveToNextHand s with ⟨b, s1⟩
  rw [hm] at h
  rw [moveToNextHand] at hm
  cases b
  · have hs1 : s1 = s := by
      split at hm
      · cases hm
      · cases hm
        rfl
    subst hs1
    rcases hd : dealerPlay { s1 with currentPhase := GamePhase.dealerTurn } with _ | s2
    · simp [hd] at h
    · simp [hd] at h
      subst h
      have := dealerPlay_inv _ _ (⟨hinv.1, hinv.2.1, hinv.2.2⟩ :
        StateInv { s1 with currentPhase := GamePhase.dealerTurn }) hd
      exact ⟨this.1, this.2.1, this.2.2⟩
  · simp only [Option.some_inj, Except.ok.injEq] at h
    subst h
    split at hm
    · rename_i hguard
      cases hm
      refine ⟨hinv.1, hinv.2.1, ?_⟩
      show s.activeHandIndex + 1 < s.playerHands.length
      omega
    · cases hm

theorem handleAction_ok_inv (a : PlayerAction) (s s' : GameState)
    (hinv : StateInv s) (h : handleAction a s = some (Except.ok s')) :
    StateInv s' := by
  cases a with
  | hit =>
    rw [handleAction] at h
    split at h
    · refine endHandOrDealer_inv _ _ ?_ h
      have h1 := hitActive_inv s hinv
      exact ⟨h1.1, by simpa using h1.2.1, h1.2.2⟩
    · simp only [Option.some_inj, Except.ok.injEq] at h
      subst h
      exact hitActive_inv s hinv
  | stand => exact endHandOrDealer_inv _ _ hinv h
  | split =>
    rw [handleAction] at h
    split at h
    · simp only [Option.some_inj, Except.ok.injEq] at h
      subst h
      exact splitHand_inv s hinv
    · simp at h
  | doubleDown =>
    simp only [handleAction, Option.some_inj, Except.ok.injEq] at h
    subst h
    exact hinv
  | surrender =>
    simp only [handleAction, Option.some_inj, Except.ok.injEq] at h
    subst h
    exact hinv

/-- C10: in every state reachable through the public operations the
hand, bet and outcome lists stay aligned and the active hand index stays
in range. -/
theorem reachable_state_inv (s : GameState) (h : Reachable s) : StateInv s := by
  induction h with
  | init supply => exact ⟨rfl, rfl, Nat.one_pos⟩
  | startRound hr hok ih => exact startGame_ok_inv _ _ _ _ hok
  | action hr hok ih => exact handleAction_ok_inv _ _ _ ih hok
  | dealer hr hok ih => exact dealerPlay_inv _ _ ih hok
  | settle hr ih => exact checkAllHandsOutcome_inv _ ih
  | fresh hr ih => exact ⟨rfl, rfl, Nat.one_pos⟩
  | restart hr ih => exact ⟨rfl, rfl, Nat.one_pos⟩

theorem reachable_state_inv_witness : StateInv (initState demoSupply) :=
  reachable_state_inv (initState demoSupply) (Reachable.init demoSupply)

end Blackjack
